import Mathlib

/-!
Shallow embedding of `src/index.js` of the `is-absolute-url` package.

JavaScript strings are modeled as lists of Unicode code points (`List Nat`);
the source itself works on `codePointAt` values (e.g. 104 = 'h', 58 = ':',
92 = '\'), so every numeric comparison below mirrors a comparison in the
source.  `String.prototype.toLowerCase` is modeled by its action on ASCII
characters (the only characters the classifier compares against), and the
module-level `Map` cache is modeled as an association list in insertion
order, which is exactly the iteration order of a JavaScript `Map`.
-/

/-- A JavaScript string, as its list of code points. -/
abbrev JSString := List Nat

/-- Code-point test for `[a-zA-Z]` (A-Z is 65-90, a-z is 97-122). -/
def isAsciiLetter (n : Nat) : Bool :=
  decide (65 ≤ n ∧ n ≤ 90) || decide (97 ≤ n ∧ n ≤ 122)

/-- Code-point test for the regex class `[a-zA-Z\d+\-.]`
(digits are 48-57, and 43 = plus, 45 = hyphen, 46 = dot). -/
def isSchemeBodyChar (n : Nat) : Bool :=
  isAsciiLetter n || decide (48 ≤ n ∧ n ≤ 57) ||
    decide (n = 43) || decide (n = 45) || decide (n = 46)

/-- Helper for `ABSOLUTE_URL_REGEX`: after the leading letter the regex
consumes characters of the class `[a-zA-Z\d+\-.]` until it reaches a colon
(58); `test` succeeds exactly when a colon is reached. -/
def schemeTail : JSString → Bool
  | [] => false
  | c :: rest =>
    if c = 58 then true
    else if isSchemeBodyChar c then schemeTail rest
    else false

/-- `ABSOLUTE_URL_REGEX.test`, for `/^[a-zA-Z][a-zA-Z\d+\-.]*?:/` from
`src/index.js` line 3: an ASCII letter, then scheme-body characters, then a
colon.  Laziness of `*?` is irrelevant to `test`, which only asks whether a
match exists. -/
def absoluteUrlTest : JSString → Bool
  | [] => false
  | c :: rest => isAsciiLetter c && schemeTail rest

/-- ASCII action of `String.prototype.toLowerCase` (and of the regex `i`
flag in non-unicode mode): shift A-Z (65-90) down into a-z. -/
def asciiLower (n : Nat) : Nat :=
  if 65 ≤ n ∧ n ≤ 90 then n + 32 else n

/-- `HTTP_PROTOCOLS_REGEX.test`, for `/^https?:/i` from `src/index.js`
line 6: the first five (resp. six) code points, case-folded, are
`http:` = [104,116,116,112,58] (resp. `https:` = [104,116,116,112,115,58]). -/
def httpProtocolsTest (s : JSString) : Bool :=
  decide ((s.take 5).map asciiLower = [104, 116, 116, 112, 58]) ||
    decide ((s.take 6).map asciiLower = [104, 116, 116, 112, 115, 58])

/-- `hasCommonHttpProtocol` from `src/index.js` lines 13-46.  The source
reads `codePointAt` 0-4 (and lazily 5); `codePointAt` past the end yields
`undefined`, which compares unequal to every number, so we model the reads
with `List.getElem?`.  The final fallback lower-cases `url.slice(0, 6)` and
compares it with the literals `http:` and `https:`. -/
def hasCommonHttpProtocol (s : JSString) : Bool :=
  let c1 := s[0]?
  let c2 := s[1]?
  let c3 := s[2]?
  let c4 := s[3]?
  let c5 := s[4]?
  -- Http: (104=h, 116=t, 112=p, 58=:)
  if c1 = some 104 ∧ c2 = some 116 ∧ c3 = some 116 ∧ c4 = some 112 ∧ c5 = some 58 then
    true
  -- HTTP: (72=H, 84=T, 80=P, 58=:)
  else if c1 = some 72 ∧ c2 = some 84 ∧ c3 = some 84 ∧ c4 = some 80 ∧ c5 = some 58 then
    true
  else
    let c6 := s[5]?
    -- Https: (115=s)
    if c1 = some 104 ∧ c2 = some 116 ∧ c3 = some 116 ∧ c4 = some 112 ∧
        c5 = some 115 ∧ c6 = some 58 then
      true
    -- HTTPS: (83=S)
    else if c1 = some 72 ∧ c2 = some 84 ∧ c3 = some 84 ∧ c4 = some 80 ∧
        c5 = some 83 ∧ c6 = some 58 then
      true
    else
      -- firstSix = url.slice(0, 6).toLowerCase()
      -- firstSix === 'http:' || firstSix === 'https:'
      decide ((s.take 6).map asciiLower = [104, 116, 116, 112, 58]) ||
        decide ((s.take 6).map asciiLower = [104, 116, 116, 112, 115, 58])

/-- `isWindowsPath` from `src/index.js` lines 48-62: at least three
characters, the first an ASCII letter (65-90 or 97-122), the second a colon
(58), the third a backslash (92).  Strings shorter than three characters
fall into the wildcard row, matching the source's early `return false`. -/
def isWindowsPath : JSString → Bool
  | c1 :: c2 :: c3 :: _ =>
    (decide (65 ≤ c1 ∧ c1 ≤ 90) || decide (97 ≤ c1 ∧ c1 ≤ 122)) &&
      decide (c2 = 58) && decide (c3 = 92)
  | _ => false

/-- `CACHE_MAX_SIZE` from `src/index.js` line 9. -/
def CACHE_MAX_SIZE : Nat := 1000

/-- The `validationCache` Map, as its entries in insertion order. -/
abbrev CacheState := List (JSString × Bool)

/-- Code points of the template-literal rendering of a boolean:
`true` = [116,114,117,101] and `false` = [102,97,108,115,101]. -/
def boolTag (b : Bool) : JSString :=
  if b then [116, 114, 117, 101] else [102, 97, 108, 115, 101]

/-- The cache key `` `${url}|${httpOnly}` `` from `src/index.js` line 78
(124 = the pipe character). -/
def cacheKey (s : JSString) (h : Bool) : JSString :=
  s ++ 124 :: boolTag h

/-- `validationCache.has(k)`. -/
def cacheHas (st : CacheState) (k : JSString) : Bool :=
  st.any fun e => decide (e.1 = k)

/-- `validationCache.get(k)` (only consulted after a successful `has`). -/
def cacheGet (st : CacheState) (k : JSString) : Bool :=
  ((st.find? fun e => decide (e.1 = k)).map Prod.snd).getD false

/-- `validationCache.delete(k)`: a Map holds at most one entry per key, so
deleting removes the first (and only) entry with that key. -/
def mapDelete (st : CacheState) (k : JSString) : CacheState :=
  st.eraseP fun e => decide (e.1 = k)

/-- `evictOldestCacheEntry` from `src/index.js` lines 64-67: delete the
key returned by `validationCache.keys().next().value`, i.e. the key of the
first (oldest-inserted) entry; on an empty map this deletes `undefined`,
a no-op. -/
def evictOldestCacheEntry (st : CacheState) : CacheState :=
  match st with
  | [] => st
  | e :: _ => mapDelete st e.1

/-- `validationCache.set(k, v)`: overwrite in place when the key is
present (keeping its position), otherwise append as the newest entry. -/
def mapSet (st : CacheState) (k : JSString) (v : Bool) : CacheState :=
  if cacheHas st k then st.map fun e => if e.1 = k then (k, v) else e
  else st ++ [(k, v)]

/-- The store sequence shared by all three return paths of `isAbsoluteUrl`
(`src/index.js` lines 92-96, 105-109, 120-124): evict the oldest entry
when the cache is at capacity, then insert. -/
def cacheStore (st : CacheState) (k : JSString) (v : Bool) : CacheState :=
  let st' := if CACHE_MAX_SIZE ≤ st.length then evictOldestCacheEntry st else st
  mapSet st' k v

/-- The classification `isAbsoluteUrl` computes on a cache miss
(`src/index.js` lines 88-117), as a pure function of the string and the
resolved `httpOnly` flag: Windows-path exclusion, then the HTTP(S) fast
path, then `ABSOLUTE_URL_REGEX` followed by `HTTP_PROTOCOLS_REGEX`. -/
def classify (s : JSString) (httpOnly : Bool) : Bool :=
  if isWindowsPath s then false
  else if httpOnly && decide (5 ≤ s.length) && hasCommonHttpProtocol s then true
  else if absoluteUrlTest s then (if httpOnly then httpProtocolsTest s else true)
  else false

/-- `isAbsoluteUrl` from `src/index.js` lines 69-127, for a string
argument and a resolved `httpOnly` flag, as a function from cache state to
(returned boolean, new cache state). -/
def isAbsoluteUrlCall (s : JSString) (httpOnly : Bool) (st : CacheState) :
    Bool × CacheState :=
  let key := cacheKey s httpOnly
  if cacheHas st key then (cacheGet st key, st)
  else if isWindowsPath s then (false, cacheStore st key false)
  else if httpOnly && decide (5 ≤ s.length) && hasCommonHttpProtocol s then
    (true, cacheStore st key true)
  else
    let result :=
      if absoluteUrlTest s then (if httpOnly then httpProtocolsTest s else true)
      else false
    (result, cacheStore st key result)

/-- The exported entry point with its options object: `httpOnly` defaults
to `true` when the option is omitted (`src/index.js` line 75). -/
def isAbsoluteUrl (s : JSString) (opts : Option Bool) (st : CacheState) :
    Bool × CacheState :=
  isAbsoluteUrlCall s (opts.getD true) st

/-- JavaScript values, as far as the `typeof url !== 'string'` guard can
distinguish them. -/
inductive JSValue where
  | str : JSString → JSValue
  | number : Int → JSValue
  | boolean : Bool → JSValue
  | nullValue : JSValue
  | undefinedValue : JSValue
  | object : JSValue

/-- `typeof v`, as code points: `string`, `number`, `boolean`, `object`
(also for `null`), `undefined`. -/
def typeofName : JSValue → JSString
  | .str _ => [115, 116, 114, 105, 110, 103]
  | .number _ => [110, 117, 109, 98, 101, 114]
  | .boolean _ => [98, 111, 111, 108, 101, 97, 110]
  | .nullValue => [111, 98, 106, 101, 99, 116]
  | .undefinedValue => [117, 110, 100, 101, 102, 105, 110, 101, 100]
  | .object => [111, 98, 106, 101, 99, 116]

/-- Code points of the text before the typeof in the `TypeError` message,
i.e. of: Expected a `string`, got ` -/
def typeErrorPre : JSString :=
  [69, 120, 112, 101, 99, 116, 101, 100, 32, 97, 32, 96, 115, 116, 114,
   105, 110, 103, 96, 44, 32, 103, 111, 116, 32, 96]

/-- The full `TypeError` message of `src/index.js` line 71: the fixed text,
the `typeof` of the received value, and a closing backtick (96). -/
def typeErrorMessage (v : JSValue) : JSString :=
  typeErrorPre ++ typeofName v ++ [96]

/-- `isAbsoluteUrl` on an arbitrary JavaScript first argument: non-strings
throw the `TypeError` before the cache is touched (`src/index.js` lines
70-72), strings run the classifier. -/
def isAbsoluteUrlJS (v : JSValue) (opts : Option Bool) (st : CacheState) :
    Except JSString Bool × CacheState :=
  match v with
  | .str s =>
    let r := isAbsoluteUrl s opts st
    (Except.ok r.1, r.2)
  | _ => (Except.error (typeErrorMessage v), st)

/-- The scheme-prefix grammar as the specification states it: an ASCII
letter, then zero or more characters of the class letter, digit, plus,
hyphen, dot, then a colon, as a prefix of the string. -/
def SchemeGrammar (s : JSString) : Prop :=
  ∃ a body rest, s = a :: (body ++ 58 :: rest) ∧ isAsciiLetter a = true ∧
    ∀ c ∈ body, isSchemeBodyChar c = true

/-- The scheme token of a string: the text before the first colon. -/
def schemeToken (s : JSString) : JSString :=
  s.takeWhile fun c => decide (c ≠ 58)

/-- Modelled from the spec (step 4 and step 5-6 of the evaluation order):
the reference route for the classification, with no fast path — the
platform-path exclusion, then the full scheme-prefix test followed by the
scheme-restriction test. -/
def classifyRef (s : JSString) (httpOnly : Bool) : Bool :=
  if isWindowsPath s then false
  else if absoluteUrlTest s then (if httpOnly then httpProtocolsTest s else true)
  else false

/-- States of the `validationCache` reachable by any sequence of calls,
starting from the empty map the module initializes. -/
inductive Reachable : CacheState → Prop
  | init : Reachable []
  | step (s : JSString) (h : Bool) {st : CacheState} :
      Reachable st → Reachable (isAbsoluteUrlCall s h st).2

/-- Invariant on cache states: every entry is the stored classification of
the string and flag its key encodes. -/
def GoodState (st : CacheState) : Prop :=
  ∀ e ∈ st, ∃ s h, e.1 = cacheKey s h ∧ e.2 = classify s h

/-- A concrete cache state holding 1000 entries with pairwise distinct
keys, used to exercise eviction at capacity. -/
def bigState : CacheState :=
  (List.range 1000).map fun i => ([i], false)

theorem takeWhile_append_stop (p : Nat → Bool) (l r : JSString) (a : Nat)
    (hl : ∀ c ∈ l, p c = true) (ha : p a = false) :
    (l ++ a :: r).takeWhile p = l := by
  induction l with
  | nil => simp [List.takeWhile_cons, ha]
  | cons c t ih =>
    have hc : p c = true := hl c (by simp)
    have ih' := ih fun x hx => hl x (by simp [hx])
    simp [List.takeWhile_cons, hc, ih']

theorem schemeTail_iff (t : JSString) :
    schemeTail t = true ↔
      ∃ body rest, t = body ++ 58 :: rest ∧ ∀ c ∈ body, isSchemeBodyChar c = true := by
  induction t with
  | nil =>
    simp only [schemeTail, Bool.false_eq_true, false_iff]
    rintro ⟨body, rest, heq, -⟩
    exact absurd heq (by simp)
  | cons c r ih =>
    by_cases hc : c = 58
    · subst hc
      constructor
      · intro _
        exact ⟨[], r, rfl, by simp⟩
      · intro _
        simp [schemeTail]
    · by_cases hb : isSchemeBodyChar c = true
      · rw [show schemeTail (c :: r) = schemeTail r by simp [schemeTail, hc, hb], ih]
        constructor
        · rintro ⟨body, rest, rfl, hall⟩
          exact ⟨c :: body, rest, rfl, by
            intro x hx
            rcases List.mem_cons.mp hx with rfl | hx
            · exact hb
            · exact hall x hx⟩
        · rintro ⟨body, rest, heq, hall⟩
          cases body with
          | nil => exact absurd (List.cons.inj heq).1 hc
          | cons b bs =>
            obtain ⟨-, h2⟩ := List.cons.inj heq
            exact ⟨bs, rest, h2, fun x hx => hall x (by simp [hx])⟩
      · rw [show schemeTail (c :: r) = false by simp [schemeTail, hc, hb]]
        simp only [Bool.false_eq_true, false_iff]
        rintro ⟨body, rest, heq, hall⟩
        cases body with
        | nil => exact hc (List.cons.inj heq).1
        | cons b bs =>
          obtain ⟨rfl, -⟩ := List.cons.inj heq
          exact hb (hall c (by simp))

theorem schemeGrammar_iff (s : JSString) :
    SchemeGrammar s ↔ absoluteUrlTest s = true := by
  cases s with
  | nil =>
    simp only [absoluteUrlTest, Bool.false_eq_true, iff_false]
    rintro ⟨a, body, rest, heq, -, -⟩
    exact absurd heq (by simp)
  | cons a t =>
    simp only [absoluteUrlTest, Bool.and_eq_true, SchemeGrammar]
    constructor
    · rintro ⟨a', body, rest, heq, ha, hbody⟩
      obtain ⟨rfl, rfl⟩ := List.cons.inj heq
      exact ⟨ha, (schemeTail_iff _).mpr ⟨body, rest, rfl, hbody⟩⟩
    · rintro ⟨ha, htail⟩
      obtain ⟨body, rest, rfl, hbody⟩ := (schemeTail_iff t).mp htail
      exact ⟨a, body, rest, rfl, ha, hbody⟩

theorem asciiLower_58 : asciiLower 58 = 58 := by decide

theorem eq_58_of_asciiLower {x : Nat} (h : asciiLower x = 58) : x = 58 := by
  unfold asciiLower at h
  split at h <;> omega

theorem letter_of_asciiLower {x t : Nat} (h : asciiLower x = t)
    (h1 : 97 ≤ t) (h2 : t ≤ 122) : isAsciiLetter x = true := by
  unfold asciiLower at h
  simp only [isAsciiLetter, Bool.or_eq_true, decide_eq_true_eq]
  split at h <;> omega

theorem bodyChar_of_letter {c : Nat} (h : isAsciiLetter c = true) :
    isSchemeBodyChar c = true := by
  simp [isSchemeBodyChar, h]

theorem ne_58_of_letter {c : Nat} (h : isAsciiLetter c = true) : c ≠ 58 := by
  simp only [isAsciiLetter, Bool.or_eq_true, decide_eq_true_eq] at h
  omega

theorem schemeTail_of_body (t : JSString) (h : ∀ c ∈ t, isSchemeBodyChar c = true)
    (rest : JSString) : schemeTail (t ++ 58 :: rest) = true := by
  induction t with
  | nil => simp [schemeTail]
  | cons c r ih =>
    by_cases hc : c = 58
    · simp [schemeTail, hc]
    · have hb : isSchemeBodyChar c = true := h c (by simp)
      simp only [List.cons_append, schemeTail, hc, if_false, hb, if_true]
      exact ih fun x hx => h x (by simp [hx])

theorem take5_of_points {s : JSString} {v0 v1 v2 v3 v4 : Nat}
    (h0 : s[0]? = some v0) (h1 : s[1]? = some v1) (h2 : s[2]? = some v2)
    (h3 : s[3]? = some v3) (h4 : s[4]? = some v4) :
    s.take 5 = [v0, v1, v2, v3, v4] := by
  rcases s with _ | ⟨a, _ | ⟨b, _ | ⟨c, _ | ⟨d, _ | ⟨e, t⟩⟩⟩⟩⟩ <;> simp_all

theorem take6_of_points {s : JSString} {v0 v1 v2 v3 v4 v5 : Nat}
    (h0 : s[0]? = some v0) (h1 : s[1]? = some v1) (h2 : s[2]? = some v2)
    (h3 : s[3]? = some v3) (h4 : s[4]? = some v4) (h5 : s[5]? = some v5) :
    s.take 6 = [v0, v1, v2, v3, v4, v5] := by
  rcases s with _ | ⟨a, _ | ⟨b, _ | ⟨c, _ | ⟨d, _ | ⟨e, _ | ⟨f, t⟩⟩⟩⟩⟩⟩ <;> simp_all

theorem http_of_hasCommon {s : JSString} (h : hasCommonHttpProtocol s = true) :
    httpProtocolsTest s = true := by
  by_cases h1 : s[0]? = some 104 ∧ s[1]? = some 116 ∧ s[2]? = some 116 ∧
      s[3]? = some 112 ∧ s[4]? = some 58
  · obtain ⟨a0, a1, a2, a3, a4⟩ := h1
    simp only [httpProtocolsTest, Bool.or_eq_true, decide_eq_true_eq,
      take5_of_points a0 a1 a2 a3 a4]
    left
    decide
  by_cases h2 : s[0]? = some 72 ∧ s[1]? = some 84 ∧ s[2]? = some 84 ∧
      s[3]? = some 80 ∧ s[4]? = some 58
  · obtain ⟨a0, a1, a2, a3, a4⟩ := h2
    simp only [httpProtocolsTest, Bool.or_eq_true, decide_eq_true_eq,
      take5_of_points a0 a1 a2 a3 a4]
    left
    decide
  by_cases h3 : s[0]? = some 104 ∧ s[1]? = some 116 ∧ s[2]? = some 116 ∧
      s[3]? = some 112 ∧ s[4]? = some 115 ∧ s[5]? = some 58
  · obtain ⟨a0, a1, a2, a3, a4, a5⟩ := h3
    simp only [httpProtocolsTest, Bool.or_eq_true, decide_eq_true_eq,
      take6_of_points a0 a1 a2 a3 a4 a5]
    right
    decide
  by_cases h4 : s[0]? = some 72 ∧ s[1]? = some 84 ∧ s[2]? = some 84 ∧
      s[3]? = some 80 ∧ s[4]? = some 83 ∧ s[5]? = some 58
  · obtain ⟨a0, a1, a2, a3, a4, a5⟩ := h4
    simp only [httpProtocolsTest, Bool.or_eq_true, decide_eq_true_eq,
      take6_of_points a0 a1 a2 a3 a4 a5]
    right
    decide
  · have hf : (decide ((s.take 6).map asciiLower = [104, 116, 116, 112, 58]) ||
        decide ((s.take 6).map asciiLower = [104, 116, 116, 112, 115, 58])) = true := by
      simp only [hasCommonHttpProtocol] at h
      rw [if_neg h1, if_neg h2, if_neg h3, if_neg h4] at h
      exact h
    rcases Bool.or_eq_true_iff.mp hf with hd | hd
    · have hd := of_decide_eq_true hd
      have hlen : (6 : Nat) ⊓ s.length = 5 := by
        have hc := congrArg List.length hd
        simpa [List.length_map, List.length_take] using hc
      have hslen : s.length = 5 := by
        rw [Nat.min_def] at hlen
        split at hlen <;> omega
      have ht6 : s.take 6 = s := List.take_of_length_le (by omega)
      have ht5 : s.take 5 = s := List.take_of_length_le (by omega)
      simp only [httpProtocolsTest, Bool.or_eq_true, decide_eq_true_eq]
      left
      rw [ht5]
      rw [ht6] at hd
      exact hd
    · have hd := of_decide_eq_true hd
      simp only [httpProtocolsTest, Bool.or_eq_true, decide_eq_true_eq]
      right
      exact hd

theorem absoluteUrlTest_of_http {s : JSString} (h : httpProtocolsTest s = true) :
    absoluteUrlTest s = true := by
  simp only [httpProtocolsTest, Bool.or_eq_true, decide_eq_true_eq] at h
  rcases h with h | h
  · rcases s with _ | ⟨c0, _ | ⟨c1, _ | ⟨c2, _ | ⟨c3, _ | ⟨c4, t⟩⟩⟩⟩⟩
    · simp at h
    · simp at h
    · simp at h
    · simp at h
    · simp at h
    · simp only [List.take_succ_cons, List.take_zero, List.map_cons, List.map_nil,
        List.cons.injEq, and_true] at h
      obtain ⟨e0, e1, e2, e3, e4⟩ := h
      have l0 := letter_of_asciiLower e0 (by omega) (by omega)
      have l1 := letter_of_asciiLower e1 (by omega) (by omega)
      have l2 := letter_of_asciiLower e2 (by omega) (by omega)
      have l3 := letter_of_asciiLower e3 (by omega) (by omega)
      have hc4 : c4 = 58 := eq_58_of_asciiLower e4
      subst hc4
      simp only [absoluteUrlTest, Bool.and_eq_true]
      refine ⟨l0, ?_⟩
      exact schemeTail_of_body [c1, c2, c3]
        (by
          intro x hx
          simp only [List.mem_cons, List.not_mem_nil, or_false] at hx
          rcases hx with rfl | rfl | rfl
          · exact bodyChar_of_letter l1
          · exact bodyChar_of_letter l2
          · exact bodyChar_of_letter l3) t
  · rcases s with _ | ⟨c0, _ | ⟨c1, _ | ⟨c2, _ | ⟨c3, _ | ⟨c4, _ | ⟨c5, t⟩⟩⟩⟩⟩⟩
    · simp at h
    · simp at h
    · simp at h
    · simp at h
    · simp at h
    · simp at h
    · simp only [List.take_succ_cons, List.take_zero, List.map_cons, List.map_nil,
        List.cons.injEq, and_true] at h
      obtain ⟨e0, e1, e2, e3, e4, e5⟩ := h
      have l0 := letter_of_asciiLower e0 (by omega) (by omega)
      have l1 := letter_of_asciiLower e1 (by omega) (by omega)
      have l2 := letter_of_asciiLower e2 (by omega) (by omega)
      have l3 := letter_of_asciiLower e3 (by omega) (by omega)
      have l4 := letter_of_asciiLower e4 (by omega) (by omega)
      have hc5 : c5 = 58 := eq_58_of_asciiLower e5
      subst hc5
      simp only [absoluteUrlTest, Bool.and_eq_true]
      refine ⟨l0, ?_⟩
      exact schemeTail_of_body [c1, c2, c3, c4]
        (by
          intro x hx
          simp only [List.mem_cons, List.not_mem_nil, or_false] at hx
          rcases hx with rfl | rfl | rfl | rfl
          · exact bodyChar_of_letter l1
          · exact bodyChar_of_letter l2
          · exact bodyChar_of_letter l3
          · exact bodyChar_of_letter l4) t

theorem http_token_iff (tok rest : JSString) (htok : ∀ c ∈ tok, c ≠ 58) :
    httpProtocolsTest (tok ++ 58 :: rest) = true ↔
      (tok.map asciiLower = [104, 116, 116, 112] ∨
        tok.map asciiLower = [104, 116, 116, 112, 115]) := by
  constructor
  · intro h
    simp only [httpProtocolsTest, Bool.or_eq_true, decide_eq_true_eq] at h
    rcases h with h | h
    · rcases tok with _ | ⟨a, _ | ⟨b, _ | ⟨c, _ | ⟨d, _ | ⟨e, t⟩⟩⟩⟩⟩
      · simp [asciiLower_58] at h
      · simp [asciiLower_58] at h
      · simp [asciiLower_58] at h
      · simp [asciiLower_58] at h
      · left
        simp only [List.cons_append, List.nil_append, List.take_succ_cons,
          List.take_zero, List.map_cons, List.map_nil, List.cons.injEq,
          asciiLower_58, and_true] at h
        obtain ⟨e0, e1, e2, e3⟩ := h
        simp [e0, e1, e2, e3]
      · exfalso
        simp only [List.cons_append, List.take_succ_cons, List.take_zero,
          List.map_cons, List.map_nil, List.cons.injEq, and_true] at h
        exact htok e (by simp) (eq_58_of_asciiLower h.2.2.2.2)
    · rcases tok with _ | ⟨a, _ | ⟨b, _ | ⟨c, _ | ⟨d, _ | ⟨e, _ | ⟨f, t⟩⟩⟩⟩⟩⟩
      · simp [asciiLower_58] at h
      · simp [asciiLower_58] at h
      · simp [asciiLower_58] at h
      · simp [asciiLower_58] at h
      · simp [asciiLower_58] at h
      · right
        simp only [List.cons_append, List.nil_append, List.take_succ_cons,
          List.take_zero, List.map_cons, List.map_nil, List.cons.injEq,
          asciiLower_58, and_true] at h
        obtain ⟨e0, e1, e2, e3, e4⟩ := h
        simp [e0, e1, e2, e3, e4]
      · exfalso
        simp only [List.cons_append, List.take_succ_cons, List.take_zero,
          List.map_cons, List.map_nil, List.cons.injEq, and_true] at h
        exact htok f (by simp) (eq_58_of_asciiLower h.2.2.2.2.2)
  · intro h
    rcases h with h | h
    · rcases tok with _ | ⟨a, _ | ⟨b, _ | ⟨c, _ | ⟨d, _ | ⟨e, t⟩⟩⟩⟩⟩ <;> simp at h
      obtain ⟨e0, e1, e2, e3⟩ := h
      simp only [httpProtocolsTest, Bool.or_eq_true, decide_eq_true_eq]
      left
      simp [e0, e1, e2, e3, asciiLower_58]
    · rcases tok with _ | ⟨a, _ | ⟨b, _ | ⟨c, _ | ⟨d, _ | ⟨e, _ | ⟨f, t⟩⟩⟩⟩⟩⟩ <;> simp at h
      obtain ⟨e0, e1, e2, e3, e4⟩ := h
      simp only [httpProtocolsTest, Bool.or_eq_true, decide_eq_true_eq]
      right
      simp [e0, e1, e2, e3, e4, asciiLower_58]

theorem windows_shape {s : JSString} (h : isWindowsPath s = true) :
    ∃ c1 rest, s = c1 :: 58 :: 92 :: rest ∧ isAsciiLetter c1 = true := by
  rcases s with _ | ⟨c1, _ | ⟨c2, _ | ⟨c3, rest⟩⟩⟩
  · simp [isWindowsPath] at h
  · simp [isWindowsPath] at h
  · simp [isWindowsPath] at h
  · simp only [isWindowsPath, Bool.and_eq_true, Bool.or_eq_true,
      decide_eq_true_eq] at h
    obtain ⟨⟨hl, h2⟩, h3⟩ := h
    subst h2
    subst h3
    exact ⟨c1, rest, rfl, by simp [isAsciiLetter, hl]⟩

theorem windows_of_letter {c : Nat} (hc : isAsciiLetter c = true) (rest : JSString) :
    isWindowsPath (c :: 58 :: 92 :: rest) = true := by
  simp only [isAsciiLetter, Bool.or_eq_true, decide_eq_true_eq] at hc
  simp [isWindowsPath, hc]

theorem grammar_of_windows {s : JSString} (h : isWindowsPath s = true) :
    SchemeGrammar s := by
  obtain ⟨c1, rest, rfl, hl⟩ := windows_shape h
  exact ⟨c1, [], 92 :: rest, rfl, hl, by simp⟩

theorem call_hit (s : JSString) (h : Bool) (st : CacheState)
    (hh : cacheHas st (cacheKey s h) = true) :
    isAbsoluteUrlCall s h st = (cacheGet st (cacheKey s h), st) := by
  unfold isAbsoluteUrlCall
  simp [hh]

theorem call_miss (s : JSString) (h : Bool) (st : CacheState)
    (hm : cacheHas st (cacheKey s h) = false) :
    isAbsoluteUrlCall s h st =
      (classify s h, cacheStore st (cacheKey s h) (classify s h)) := by
  unfold isAbsoluteUrlCall classify
  simp only [hm, Bool.false_eq_true, if_false]
  split_ifs <;> rfl

theorem evict_cons (e : JSString × Bool) (t : CacheState) :
    evictOldestCacheEntry (e :: t) = t := by
  simp [evictOldestCacheEntry, mapDelete, List.eraseP_cons_of_pos]

theorem cacheKey_reverse (s : JSString) (h : Bool) :
    (cacheKey s h).reverse = (boolTag h).reverse ++ 124 :: s.reverse := by
  simp [cacheKey, List.reverse_append]

theorem boolTag_ne_pipe (h : Bool) : ∀ c ∈ (boolTag h).reverse, decide (c ≠ 124) = true := by
  cases h <;> decide

theorem cacheKey_inj {s1 : JSString} {h1 : Bool} {s2 : JSString} {h2 : Bool}
    (he : cacheKey s1 h1 = cacheKey s2 h2) : s1 = s2 ∧ h1 = h2 := by
  have hrev := congrArg List.reverse he
  rw [cacheKey_reverse, cacheKey_reverse] at hrev
  have htw := congrArg (List.takeWhile fun c => decide (c ≠ 124)) hrev
  rw [takeWhile_append_stop _ _ _ _ (boolTag_ne_pipe h1) (by decide),
    takeWhile_append_stop _ _ _ _ (boolTag_ne_pipe h2) (by decide)] at htw
  have hb : h1 = h2 := by
    cases h1 <;> cases h2 <;> first | rfl | simp [boolTag] at htw
  subst hb
  refine ⟨?_, rfl⟩
  have hs := List.append_cancel_left hrev
  have hs2 := List.cons.inj hs
  have := congrArg List.reverse hs2.2
  simpa using this

theorem goodState_set {st : CacheState} {k : JSString} {v : Bool}
    (h : GoodState st) (hk : ∃ s hb, k = cacheKey s hb ∧ v = classify s hb) :
    GoodState (mapSet st k v) := by
  obtain ⟨s, hb, hkk, hvv⟩ := hk
  unfold mapSet
  split
  · intro x hx
    rcases List.mem_map.mp hx with ⟨e, he, rfl⟩
    by_cases hek : e.1 = k
    · rw [if_pos hek]
      exact ⟨s, hb, hkk, hvv⟩
    · rw [if_neg hek]
      exact h e he
  · intro x hx
    rcases List.mem_append.mp hx with hx | hx
    · exact h x hx
    · have hxe : x = (k, v) := by simpa using hx
      subst hxe
      exact ⟨s, hb, hkk, hvv⟩

theorem goodState_evict {st : CacheState} (h : GoodState st) :
    GoodState (evictOldestCacheEntry st) := by
  cases st with
  | nil => exact h
  | cons e t =>
    rw [evict_cons]
    exact fun x hx => h x (by simp [hx])

theorem goodState_store {st : CacheState} {k : JSString} {v : Bool}
    (h : GoodState st) (hk : ∃ s hb, k = cacheKey s hb ∧ v = classify s hb) :
    GoodState (cacheStore st k v) := by
  simp only [cacheStore]
  exact goodState_set (by split; exacts [goodState_evict h, h]) hk

theorem reachable_good {st : CacheState} (hr : Reachable st) : GoodState st := by
  induction hr with
  | init => intro e he; simp at he
  | step s hb hr ih =>
    rename_i stc
    by_cases hc : cacheHas stc (cacheKey s hb) = true
    · rw [call_hit s hb stc hc]
      exact ih
    · rw [call_miss s hb stc (by simpa using hc)]
      exact goodState_store ih ⟨s, hb, rfl, rfl⟩

theorem result_eq_classify (s : JSString) (h : Bool) (st : CacheState)
    (hr : Reachable st) : (isAbsoluteUrlCall s h st).1 = classify s h := by
  by_cases hc : cacheHas st (cacheKey s h) = true
  · rw [call_hit s h st hc]
    have hg := reachable_good hr
    obtain ⟨e, hfind⟩ : ∃ e, st.find? (fun e => decide (e.1 = cacheKey s h)) = some e := by
      rw [← Option.isSome_iff_exists, List.find?_isSome]
      simpa [cacheHas, List.any_eq_true] using hc
    have hkey : e.1 = cacheKey s h := by
      have hp := List.find?_some hfind
      simpa using hp
    obtain ⟨s', hb', hk, hv⟩ := hg e (List.mem_of_find?_eq_some hfind)
    obtain ⟨hse, hhe⟩ := cacheKey_inj (hk.symm.trans hkey)
    rw [hse, hhe] at hv
    show cacheGet st (cacheKey s h) = classify s h
    rw [cacheGet, hfind]
    simpa using hv
  · rw [call_miss s h st (by simpa using hc)]

theorem mapSet_length (st : CacheState) (k : JSString) (v : Bool) :
    (mapSet st k v).length = if cacheHas st k then st.length else st.length + 1 := by
  unfold mapSet
  split <;> rename_i hcond <;> simp [hcond]

theorem cacheStore_length_le {st : CacheState} (hl : st.length ≤ 1000)
    (k : JSString) (v : Bool) : (cacheStore st k v).length ≤ 1000 := by
  simp only [cacheStore]
  by_cases hcap : CACHE_MAX_SIZE ≤ st.length
  · rw [if_pos hcap]
    cases st with
    | nil => simp [CACHE_MAX_SIZE] at hcap
    | cons e t =>
      rw [evict_cons, mapSet_length]
      have ht : t.length ≤ 999 := by
        have hlen := hl
        simp only [List.length_cons] at hlen
        omega
      split <;> omega
  · rw [if_neg hcap]
    rw [mapSet_length]
    have hlt : st.length ≤ 999 := by
      simp only [CACHE_MAX_SIZE, not_le] at hcap
      omega
    split <;> omega

theorem call_length_le (s : JSString) (h : Bool) (st : CacheState)
    (hl : st.length ≤ 1000) : (isAbsoluteUrlCall s h st).2.length ≤ 1000 := by
  by_cases hc : cacheHas st (cacheKey s h) = true
  · rw [call_hit s h st hc]
    exact hl
  · rw [call_miss s h st (by simpa using hc)]
    exact cacheStore_length_le hl _ _

theorem keys_nodup_set {st : CacheState} {k : JSString} {v : Bool}
    (hn : (st.map Prod.fst).Nodup) : ((mapSet st k v).map Prod.fst).Nodup := by
  unfold mapSet
  split
  · rw [List.map_map]
    have heq : st.map (Prod.fst ∘ fun e => if e.1 = k then (k, v) else e)
        = st.map Prod.fst := by
      refine List.map_congr_left ?_
      intro e he
      by_cases hek : e.1 = k
      · simp [Function.comp, hek]
      · simp [Function.comp, hek]
    rw [heq]
    exact hn
  · rename_i hnot
    rw [List.map_append, List.nodup_append]
    refine ⟨hn, by simp, ?_⟩
    intro a ha hb
    have hak : a = k := by simpa using hb
    subst hak
    rcases List.mem_map.mp ha with ⟨e, he, hek⟩
    exact hnot (by
      simp only [cacheHas, List.any_eq_true]
      exact ⟨e, he, by simp [hek]⟩)

theorem keys_nodup_store {st : CacheState} {k : JSString} {v : Bool}
    (hn : (st.map Prod.fst).Nodup) : ((cacheStore st k v).map Prod.fst).Nodup := by
  simp only [cacheStore]
  apply keys_nodup_set
  split
  · cases st with
    | nil => exact hn
    | cons e t =>
      rw [evict_cons]
      rw [List.map_cons, List.nodup_cons] at hn
      exact hn.2
  · exact hn

theorem call_keys_nodup (s : JSString) (h : Bool) (st : CacheState)
    (hn : (st.map Prod.fst).Nodup) :
    ((isAbsoluteUrlCall s h st).2.map Prod.fst).Nodup := by
  by_cases hc : cacheHas st (cacheKey s h) = true
  · rw [call_hit s h st hc]
    exact hn
  · rw [call_miss s h st (by simpa using hc)]
    exact keys_nodup_store hn

theorem reachable_inv {st : CacheState} (hr : Reachable st) :
    st.length ≤ 1000 ∧ (st.map Prod.fst).Nodup := by
  induction hr with
  | init => simp
  | step s hb hr ih => exact ⟨call_length_le _ _ _ ih.1, call_keys_nodup _ _ _ ih.2⟩

theorem call_full_miss (s : JSString) (h : Bool) (st : CacheState)
    (e : JSString × Bool)
    (hn : (st.map Prod.fst).Nodup) (hm : cacheHas st (cacheKey s h) = false)
    (hl : 1000 ≤ st.length) (hh : st.head? = some e) :
    (isAbsoluteUrlCall s h st).2 = st.tail ++ [(cacheKey s h, classify s h)] ∧
      cacheHas (isAbsoluteUrlCall s h st).2 e.1 = false := by
  cases st with
  | nil => simp at hh
  | cons e0 t =>
    have he : e = e0 := by simpa using hh.symm
    subst he
    have hm' := hm
    rw [cacheHas, List.any_cons, Bool.or_eq_false_iff] at hm'
    obtain ⟨hme, hmt⟩ := hm'
    have hne : e.1 ≠ cacheKey s h := of_decide_eq_false hme
    rw [call_miss s h _ hm]
    have hstore : cacheStore (e :: t) (cacheKey s h) (classify s h)
        = t ++ [(cacheKey s h, classify s h)] := by
      simp only [cacheStore]
      rw [if_pos (by simpa [CACHE_MAX_SIZE] using hl), evict_cons]
      unfold mapSet
      rw [if_neg (by simp [cacheHas, hmt])]
    refine ⟨by simpa using hstore, ?_⟩
    show cacheHas (cacheStore (e :: t) (cacheKey s h) (classify s h)) e.1 = false
    rw [hstore, cacheHas, List.any_append, Bool.or_eq_false_iff]
    constructor
    · rw [List.any_eq_false]
      intro x hx
      rw [List.map_cons, List.nodup_cons] at hn
      have hxne : x.1 ≠ e.1 := by
        intro hxe
        exact hn.1 (List.mem_map.mpr ⟨x, hx, hxe⟩)
      simp [hxne]
    · simp only [List.any_cons, List.any_nil, Bool.or_false]
      rw [decide_eq_false_iff_not]
      exact fun hke => hne hke.symm

theorem classify_eq_ref (s : JSString) (h : Bool) : classify s h = classifyRef s h := by
  unfold classify classifyRef
  by_cases hw : isWindowsPath s = true
  · simp [hw]
  · simp only [hw, if_false]
    by_cases hfp : (h && decide (5 ≤ s.length) && hasCommonHttpProtocol s) = true
    · rw [if_pos hfp]
      have hparts := hfp
      simp only [Bool.and_eq_true] at hparts
      have hhttp := http_of_hasCommon hparts.2
      have habs := absoluteUrlTest_of_http hhttp
      simp [habs, hparts.1.1, hhttp]
    · rw [if_neg hfp]

/-- Claim C1 (counterexample): the claim as stated is false on the code —
the string C:\x (code points [67,58,92,120]) matches the scheme-prefix
grammar with the one-letter scheme C, yet isAbsoluteUrl with httpOnly:false
returns false, because the Windows-path exclusion fires first. -/
theorem claim1_counterexample :
    SchemeGrammar [67, 58, 92, 120] ∧
      (isAbsoluteUrl [67, 58, 92, 120] (some false) []).1 = false :=
  ⟨⟨67, [], [92, 120], rfl, by decide, by simp⟩, by decide⟩

/-- Claim C1 (amended): for every string s, under httpOnly:false, if s
matches the prefix grammar letter (letter|digit|+|-|.)* colon and is not
excluded by the platform-path rule then isAbsoluteUrl returns true, and if
s does not match that grammar it returns false (from any reachable cache
state). -/
theorem claim1_amended :
    ∀ (s : JSString) (st : CacheState), Reachable st →
      (SchemeGrammar s → isWindowsPath s = false →
        (isAbsoluteUrl s (some false) st).1 = true) ∧
      (¬ SchemeGrammar s → (isAbsoluteUrl s (some false) st).1 = false) := by
  intro s st hr
  have hres : (isAbsoluteUrl s (some false) st).1 = classify s false :=
    result_eq_classify s false st hr
  constructor
  · intro hg hw
    have habs : absoluteUrlTest s = true := (schemeGrammar_iff s).mp hg
    rw [hres]
    simp [classify, hw, habs]
  · intro hg
    have habs : absoluteUrlTest s = false := by
      cases habs' : absoluteUrlTest s
      · rfl
      · exact absurd ((schemeGrammar_iff s).mpr habs') hg
    have hw : isWindowsPath s = false := by
      cases hw' : isWindowsPath s
      · rfl
      · exact absurd (grammar_of_windows hw') hg
    rw [hres]
    simp [classify, hw, habs]

/-- Witness for the amended claim C1, at the strings h: (a one-letter
scheme, classified true under httpOnly:false) and the empty string
(no grammar match, classified false). -/
theorem claim1_amended_witness :
    (isAbsoluteUrl [104, 58] (some false) []).1 = true ∧
      (isAbsoluteUrl [] (some false) []).1 = false :=
  ⟨(claim1_amended [104, 58] [] Reachable.init).1
      ⟨104, [], [], rfl, by decide, by simp⟩ (by decide),
    (claim1_amended [] [] Reachable.init).2 (by
      rintro ⟨a, body, rest, heq, -, -⟩
      simp at heq)⟩

/-- Claim C2: for every string whose scheme prefix matches the generic
grammar, under the HttpOnly policy (httpOnly:true or omitted) isAbsoluteUrl
returns true if and only if the scheme token — the text before the first
colon — case-insensitively equals http or https (code points
[104,116,116,112] resp. [104,116,116,112,115] after lower-casing). -/
theorem claim2_scheme_token :
    ∀ (s : JSString) (opts : Option Bool) (st : CacheState),
      Reachable st → opts.getD true = true → SchemeGrammar s →
      ((isAbsoluteUrl s opts st).1 = true ↔
        ((schemeToken s).map asciiLower = [104, 116, 116, 112] ∨
          (schemeToken s).map asciiLower = [104, 116, 116, 112, 115])) := by
  intro s opts st hr hdef hg
  have hres : (isAbsoluteUrl s opts st).1 = classify s (opts.getD true) :=
    result_eq_classify s _ st hr
  rw [hres, hdef]
  obtain ⟨a, body, rest, rfl, ha, hbody⟩ := hg
  have htok58 : ∀ c ∈ a :: body, c ≠ 58 := by
    intro c hc
    rcases List.mem_cons.mp hc with rfl | hc
    · exact ne_58_of_letter ha
    · intro h58
      subst h58
      have hbc := hbody _ hc
      simp [isSchemeBodyChar, isAsciiLetter] at hbc
  have hsplit : a :: (body ++ 58 :: rest) = (a :: body) ++ 58 :: rest := rfl
  rw [hsplit]
  have htoken : schemeToken ((a :: body) ++ 58 :: rest) = a :: body :=
    takeWhile_append_stop _ _ _ _
      (fun c hc => by simpa using htok58 c hc) (by decide)
  rw [htoken]
  have hiff := http_token_iff (a :: body) rest htok58
  by_cases hw : isWindowsPath ((a :: body) ++ 58 :: rest) = true
  · have hbody_nil : body = [] := by
      obtain ⟨c1, rest', heq, -⟩ := windows_shape hw
      cases body with
      | nil => rfl
      | cons b bs =>
        exfalso
        have hb58 : b = 58 := by
          simp only [List.cons_append, List.cons.injEq] at heq
          exact heq.2.1
        exact htok58 b (by simp) hb58
    subst hbody_nil
    have hcl : classify ((a :: []) ++ 58 :: rest) true = false := by
      unfold classify
      rw [if_pos hw]
    rw [hcl]
    simp
  · have hw' : isWindowsPath ((a :: body) ++ 58 :: rest) = false := by
      simpa using hw
    have habs : absoluteUrlTest ((a :: body) ++ 58 :: rest) = true :=
      (schemeGrammar_iff _).mp ⟨a, body, rest, rfl, ha, hbody⟩
    by_cases hfp : (true && decide (5 ≤ ((a :: body) ++ 58 :: rest).length) &&
        hasCommonHttpProtocol ((a :: body) ++ 58 :: rest)) = true
    · have hhttp : httpProtocolsTest ((a :: body) ++ 58 :: rest) = true := by
        have hparts := hfp
        simp only [Bool.and_eq_true] at hparts
        exact http_of_hasCommon hparts.2
      have hcl : classify ((a :: body) ++ 58 :: rest) true = true := by
        unfold classify
        rw [if_neg (by simp only [hw', Bool.false_eq_true, not_false_eq_true]), if_pos hfp]
      rw [hcl]
      simp only [true_iff]
      exact hiff.mp hhttp
    · have hfp' : (true && decide (5 ≤ ((a :: body) ++ 58 :: rest).length) &&
          hasCommonHttpProtocol ((a :: body) ++ 58 :: rest)) = false := by
        simpa using hfp
      have hcl : classify ((a :: body) ++ 58 :: rest) true =
          httpProtocolsTest ((a :: body) ++ 58 :: rest) := by
        unfold classify
        rw [if_neg (by simp only [hw', Bool.false_eq_true, not_false_eq_true]),
          if_neg (by simp only [hfp', Bool.false_eq_true, not_false_eq_true]),
          if_pos habs, if_pos rfl]
      rw [hcl]
      exact hiff

/-- Witness for claim C2, at the string HTTP://x (code points
[72,84,84,80,58,47,47,120]) with the options object omitted. -/
theorem claim2_witness :
    (isAbsoluteUrl [72, 84, 84, 80, 58, 47, 47, 120] none []).1 = true ↔
      ((schemeToken [72, 84, 84, 80, 58, 47, 47, 120]).map asciiLower
          = [104, 116, 116, 112] ∨
        (schemeToken [72, 84, 84, 80, 58, 47, 47, 120]).map asciiLower
          = [104, 116, 116, 112, 115]) :=
  claim2_scheme_token [72, 84, 84, 80, 58, 47, 47, 120] none [] Reachable.init rfl
    ⟨72, [84, 84, 80], [47, 47, 120], rfl, by decide, by decide⟩

/-- Claim C3: every string whose first three characters are an ASCII
letter, a colon and a backslash is classified false under both policies
(from any reachable cache state), even though it matches the generic
one-letter scheme grammar. -/
theorem claim3_platform_path :
    ∀ (c : Nat) (rest : JSString) (st : CacheState) (h : Bool),
      Reachable st → isAsciiLetter c = true →
      (isAbsoluteUrl (c :: 58 :: 92 :: rest) (some h) st).1 = false ∧
        SchemeGrammar (c :: 58 :: 92 :: rest) := by
  intro c rest st h hr hc
  constructor
  · show (isAbsoluteUrlCall (c :: 58 :: 92 :: rest) h st).1 = false
    rw [result_eq_classify _ _ _ hr]
    simp [classify, windows_of_letter hc rest]
  · exact ⟨c, [], 92 :: rest, rfl, hc, by simp⟩

/-- Witness for claim C3, at C:\x with httpOnly:true and c:\ with
httpOnly:false. -/
theorem claim3_witness :
    ((isAbsoluteUrl (67 :: 58 :: 92 :: [120]) (some true) []).1 = false ∧
        SchemeGrammar (67 :: 58 :: 92 :: [120])) ∧
      ((isAbsoluteUrl (99 :: 58 :: 92 :: []) (some false) []).1 = false ∧
        SchemeGrammar (99 :: 58 :: 92 :: [])) :=
  ⟨claim3_platform_path 67 [120] [] true Reachable.init (by decide),
    claim3_platform_path 99 [] [] false Reachable.init (by decide)⟩

/-- Claim C4: for every string, flag and reachable cache state, the call
returns exactly the fresh classification (so cache hits equal fresh
computation and prior calls never change the result), and the cache-key
encoding is injective on (string, httpOnly) pairs, so distinct pairs never
share a cache entry. -/
theorem claim4_purity :
    (∀ (s : JSString) (h : Bool) (st : CacheState), Reachable st →
      (isAbsoluteUrlCall s h st).1 = classify s h) ∧
    (∀ (s1 : JSString) (h1 : Bool) (s2 : JSString) (h2 : Bool),
      cacheKey s1 h1 = cacheKey s2 h2 → s1 = s2 ∧ h1 = h2) :=
  ⟨fun s h st hr => result_eq_classify s h st hr,
    fun _ _ _ _ he => cacheKey_inj he⟩

/-- Witness for claim C4, at the one-letter string h on the empty cache,
and at a reflexive key equation. -/
theorem claim4_witness :
    ((isAbsoluteUrlCall [104] true []).1 = classify [104] true) ∧
      (([104] : JSString) = [104] ∧ true = true) :=
  ⟨claim4_purity.1 [104] true [] Reachable.init,
    claim4_purity.2 [104] true [104] true rfl⟩

/-- Claim C5: every call preserves the 1000-entry bound; on a miss at
capacity the new state is exactly the old state minus its oldest entry
plus the new entry appended, so the oldest-inserted key is no longer a
hit; and every reachable cache state is within the bound with pairwise
distinct keys. -/
theorem claim5_cache_bound :
    (∀ (s : JSString) (h : Bool) (st : CacheState), st.length ≤ 1000 →
      (isAbsoluteUrlCall s h st).2.length ≤ 1000) ∧
    (∀ (s : JSString) (h : Bool) (st : CacheState) (e : JSString × Bool),
      (st.map Prod.fst).Nodup → cacheHas st (cacheKey s h) = false →
      1000 ≤ st.length → st.head? = some e →
      (isAbsoluteUrlCall s h st).2 = st.tail ++ [(cacheKey s h, classify s h)] ∧
        cacheHas (isAbsoluteUrlCall s h st).2 e.1 = false) ∧
    (∀ st : CacheState, Reachable st →
      st.length ≤ 1000 ∧ (st.map Prod.fst).Nodup) :=
  ⟨fun s h st hl => call_length_le s h st hl,
    fun s h st e hn hm hl hh => call_full_miss s h st e hn hm hl hh,
    fun _ hr => reachable_inv hr⟩

/-- Witness for claim C5: the bound at the empty cache, the eviction
equation at a concrete full 1000-entry cache, and the invariant at the
initial state. -/
theorem claim5_witness :
    ((isAbsoluteUrlCall [104] true []).2.length ≤ 1000) ∧
      ((isAbsoluteUrlCall [104] true bigState).2 =
          bigState.tail ++ [(cacheKey [104] true, classify [104] true)] ∧
        cacheHas (isAbsoluteUrlCall [104] true bigState).2 (([0], false) : JSString × Bool).1 = false) ∧
      (([] : CacheState).length ≤ 1000 ∧ (([] : CacheState).map Prod.fst).Nodup) := by
  refine ⟨claim5_cache_bound.1 [104] true [] (by decide),
    claim5_cache_bound.2.1 [104] true bigState ([0], false) ?_ ?_ ?_ ?_,
    claim5_cache_bound.2.2 [] Reachable.init⟩
  · rw [bigState, List.map_map]
    refine List.Nodup.map ?_ (List.nodup_range 1000)
    intro i j hij
    simpa [Function.comp] using hij
  · show (bigState.any fun e => decide (e.1 = cacheKey [104] true)) = false
    rw [List.any_eq_false]
    intro x hx
    rw [bigState, List.mem_map] at hx
    obtain ⟨i, -, rfl⟩ := hx
    simp [cacheKey, boolTag]
  · simp [bigState]
  · rw [bigState, show (1000 : Nat) = 999 + 1 from rfl, List.range_succ_eq_map]
    simp

/-- Claim C6: isAbsoluteUrl raises a type error exactly when the first
argument is not a string, with a message containing the typeof of the
received value; every string argument yields a boolean. -/
theorem claim6_type_error :
    (∀ (s : JSString) (opts : Option Bool) (st : CacheState),
      ∃ b : Bool, (isAbsoluteUrlJS (JSValue.str s) opts st).1 = Except.ok b) ∧
    (∀ (v : JSValue) (opts : Option Bool) (st : CacheState),
      (∀ s, v ≠ JSValue.str s) →
      (isAbsoluteUrlJS v opts st).1 = Except.error (typeErrorMessage v) ∧
        typeErrorMessage v = typeErrorPre ++ typeofName v ++ [96]) := by
  constructor
  · intro s opts st
    exact ⟨(isAbsoluteUrl s opts st).1, rfl⟩
  · intro v opts st hv
    refine ⟨?_, rfl⟩
    cases v with
    | str s => exact absurd rfl (hv s)
    | number n => rfl
    | boolean b => rfl
    | nullValue => rfl
    | undefinedValue => rfl
    | object => rfl

/-- Witness for claim C6: the empty string yields an ok boolean, and
undefined yields the type error with its typeof in the message. -/
theorem claim6_witness :
    (∃ b : Bool, (isAbsoluteUrlJS (JSValue.str []) none []).1 = Except.ok b) ∧
      ((isAbsoluteUrlJS JSValue.undefinedValue none []).1 =
          Except.error (typeErrorMessage JSValue.undefinedValue) ∧
        typeErrorMessage JSValue.undefinedValue =
          typeErrorPre ++ typeofName JSValue.undefinedValue ++ [96]) :=
  ⟨claim6_type_error.1 [] none [],
    claim6_type_error.2 JSValue.undefinedValue none []
      (fun _ h => JSValue.noConfusion h)⟩

/-- Claim C7: the HTTP(S) fast path is behaviorally equivalent to the
reference route — a non-Windows-path string whose leading characters
case-insensitively equal http: or https: is classified true under
HttpOnly, and for every string, policy and reachable state the function
with the fast path returns exactly the reference-route classification
(full scheme-prefix test then scheme-restriction test). -/
theorem claim7_fast_path :
    (∀ (s : JSString) (st : CacheState), Reachable st →
      isWindowsPath s = false → httpProtocolsTest s = true →
      (isAbsoluteUrl s (some true) st).1 = true) ∧
    (∀ (s : JSString) (h : Bool) (st : CacheState), Reachable st →
      (isAbsoluteUrlCall s h st).1 = classifyRef s h) := by
  constructor
  · intro s st hr hw hhttp
    show (isAbsoluteUrlCall s true st).1 = true
    rw [result_eq_classify s true st hr, classify_eq_ref]
    simp [classifyRef, hw, absoluteUrlTest_of_http hhttp, hhttp]
  · intro s h st hr
    rw [result_eq_classify s h st hr, classify_eq_ref]

/-- Witness for claim C7, at http:/ under HttpOnly and ftp: under
AnyScheme on the empty cache. -/
theorem claim7_witness :
    (isAbsoluteUrl [104, 116, 116, 112, 58, 47] (some true) []).1 = true ∧
      (isAbsoluteUrlCall [102, 116, 112, 58] false []).1 =
        classifyRef [102, 116, 112, 58] false :=
  ⟨claim7_fast_path.1 [104, 116, 116, 112, 58, 47] [] Reachable.init
      (by decide) (by decide),
    claim7_fast_path.2 [102, 116, 112, 58] false [] Reachable.init⟩

/-- Claim C8: the string c:/windows (forward slash after the drive letter,
code points [99,58,47,119,105,110,100,111,119,115]) is not excluded by the
platform-path rule; it is classified true under httpOnly:false via the
one-letter scheme c and false under httpOnly:true. -/
theorem claim8_colon_slash_drive :
    ∀ st : CacheState, Reachable st →
      isWindowsPath [99, 58, 47, 119, 105, 110, 100, 111, 119, 115] = false ∧
      (isAbsoluteUrl [99, 58, 47, 119, 105, 110, 100, 111, 119, 115]
          (some false) st).1 = true ∧
      (isAbsoluteUrl [99, 58, 47, 119, 105, 110, 100, 111, 119, 115]
          (some true) st).1 = false := by
  intro st hr
  refine ⟨by decide, ?_, ?_⟩
  · show (isAbsoluteUrlCall [99, 58, 47, 119, 105, 110, 100, 111, 119, 115]
        false st).1 = true
    rw [result_eq_classify _ _ _ hr]
    decide
  · show (isAbsoluteUrlCall [99, 58, 47, 119, 105, 110, 100, 111, 119, 115]
        true st).1 = false
    rw [result_eq_classify _ _ _ hr]
    decide

/-- Witness for claim C8 at the initial empty cache. -/
theorem claim8_witness :
    isWindowsPath [99, 58, 47, 119, 105, 110, 100, 111, 119, 115] = false ∧
      (isAbsoluteUrl [99, 58, 47, 119, 105, 110, 100, 111, 119, 115]
          (some false) []).1 = true ∧
      (isAbsoluteUrl [99, 58, 47, 119, 105, 110, 100, 111, 119, 115]
          (some true) []).1 = false :=
  claim8_colon_slash_drive [] Reachable.init

/-- Claim C9: a cache hit performs no mutation — when the key is present
the call returns the stored boolean and the cache state (contents, size
and insertion order) is exactly unchanged. -/
theorem claim9_hit_frame :
    ∀ (s : JSString) (h : Bool) (st : CacheState),
      cacheHas st (cacheKey s h) = true →
      isAbsoluteUrlCall s h st = (cacheGet st (cacheKey s h), st) :=
  fun s h st hh => call_hit s h st hh

/-- Witness for claim C9 at a one-entry cache containing the probed key. -/
theorem claim9_witness :
    isAbsoluteUrlCall [104] true [(cacheKey [104] true, true)] =
      (cacheGet [(cacheKey [104] true, true)] (cacheKey [104] true),
        [(cacheKey [104] true, true)]) :=
  claim9_hit_frame [104] true [(cacheKey [104] true, true)] (by decide)

/-- Claim C10: a failing call leaves the cache unchanged — when the
argument is not a string the type error is produced and the returned cache
state is exactly the input state. -/
theorem claim10_error_frame :
    ∀ (v : JSValue) (opts : Option Bool) (st : CacheState),
      (∀ s, v ≠ JSValue.str s) →
      isAbsoluteUrlJS v opts st = (Except.error (typeErrorMessage v), st) := by
  intro v opts st hv
  cases v with
  | str s => exact absurd rfl (hv s)
  | number n => rfl
  | boolean b => rfl
  | nullValue => rfl
  | undefinedValue => rfl
  | object => rfl

/-- Witness for claim C10 at the null value on a one-entry cache. -/
theorem claim10_witness :
    isAbsoluteUrlJS JSValue.nullValue none [(cacheKey [104] true, true)] =
      (Except.error (typeErrorMessage JSValue.nullValue),
        [(cacheKey [104] true, true)]) :=
  claim10_error_frame JSValue.nullValue none [(cacheKey [104] true, true)]
    (fun _ h => JSValue.noConfusion h)
